import Mathlib

/-!
Shallow embedding of `setuptools/discovery.py` (automatic package/module
discovery) and verification of the frozen claims about it.

The filesystem is modelled as a finite tree of directories and plain files;
directory-listing order is the order of the lists in the tree (`os.walk` and
`glob` enumerate entries in an unspecified directory order, which the model
fixes as the construction order).
-/

/-- A directory: named subdirectories (in listing order) and file names. -/
inductive FSTree where
  | mk (dirs : List (String × FSTree)) (files : List String)

def FSTree.dirs : FSTree → List (String × FSTree)
  | .mk ds _ => ds

def FSTree.files : FSTree → List String
  | .mk _ fs => fs

mutual

/-- Number of directory nodes in the tree (an upper bound on its depth,
used to seed the traversal fuel below). -/
def FSTree.size : FSTree → Nat
  | .mk ds _ => 1 + sizeDirList ds

def sizeDirList : List (String × FSTree) → Nat
  | [] => 0
  | p :: rest => p.2.size + sizeDirList rest

end

/-- Character-class matching for the body of an fnmatch `[...]` set:
`a-b` ranges, other characters literal (Python `fnmatch.translate` charset). -/
def classMatch : List Char → Char → Bool
  | [], _ => false
  | [a], c => a = c
  | a :: d :: rest, c =>
      if d = '-' then
        match rest with
        | [] => a = c || d = c
        | b :: rest2 => (a ≤ c && c ≤ b) || classMatch rest2 c
      else a = c || classMatch (d :: rest) c

/-- Scan for the closing `]` of a bracket set; returns the content
before it and the remainder after it. -/
def findClose : List Char → Option (List Char × List Char)
  | [] => none
  | ']' :: rest => some ([], rest)
  | c :: rest => (findClose rest).map (fun p => (c :: p.1, p.2))

/-- Split off an fnmatch bracket set after a `[`, following
`fnmatch.translate`: a leading `!` and a `]` right after it are part of the
content, and the next `]` closes the set; `none` when there is no closing
`]` (the `[` is then literal). -/
def splitBracket (ps : List Char) : Option (List Char × List Char) :=
  match ps with
  | '!' :: ']' :: rest => (findClose rest).map (fun p => ('!' :: ']' :: p.1, p.2))
  | '!' :: rest => (findClose rest).map (fun p => ('!' :: p.1, p.2))
  | ']' :: rest => (findClose rest).map (fun p => (']' :: p.1, p.2))
  | rest => findClose rest

/-- Core of `fnmatch.fnmatchcase` on (pattern, name) character lists:
`*` matches any run, `?` any one character, `[...]` a character set,
anything else itself; the whole name must be consumed.  The `Nat` argument
is structural fuel; every recursive call shrinks `pattern.length +
name.length`, so fuel `pattern.length + name.length + 1` (used by
`fnmatchcase` below) never runs out and the `0` branch is unreachable. -/
def fnMatchFuel : Nat → List Char → List Char → Bool
  | 0, _, _ => false
  | _ + 1, [], s => s.isEmpty
  | fuel + 1, p :: ps, s =>
      if p = '*' then
        fnMatchFuel fuel ps s ||
          (match s with
           | [] => false
           | _ :: s2 => fnMatchFuel fuel (p :: ps) s2)
      else if p = '?' then
        match s with
        | [] => false
        | _ :: s2 => fnMatchFuel fuel ps s2
      else if p = '[' then
        match splitBracket ps with
        | none =>
            match s with
            | [] => false
            | c :: s2 => p = c && fnMatchFuel fuel ps s2
        | some (content, rest) =>
            match s with
            | [] => false
            | c :: s2 =>
                (match content with
                 | '!' :: cls => !(classMatch cls c)
                 | cls => classMatch cls c) && fnMatchFuel fuel rest s2
      else
        match s with
        | [] => false
        | c :: s2 => p = c && fnMatchFuel fuel ps s2

/-- `fnmatch.fnmatchcase(name, pat)`: case-sensitive glob match of the whole
name (`os.path.normcase` is the identity on POSIX). -/
def fnmatchcase (name pat : String) : Bool :=
  fnMatchFuel (pat.data.length + name.data.length + 1) pat.data name.data

/-- `_Finder._build_filter(*patterns)`: a predicate that is true iff the
name matches at least one of the patterns. -/
def buildFilter (patterns : List String) : String → Bool :=
  fun name => patterns.any (fun pat => fnmatchcase name pat)

/-- Python `str.isidentifier` restricted to ASCII (the model of identifier
characters): first character a letter or `_`, the rest letters, digits or
`_`.  Used by `_valid_name` / `_looks_like_module`. -/
def isidentifier (s : String) : Bool :=
  match s.data with
  | [] => false
  | c :: cs => (c.isAlpha || c = '_') && cs.all (fun d => d.isAlphanum || d = '_')

/-- Python `'.' in dir`: the directory base name contains a literal dot. -/
def hasDotChar (s : String) : Bool :=
  s.data.contains '.'

/-- Qualified-name extension: `os.path.relpath(..).replace(sep, '.')`
computed incrementally — the root prefix is empty, below it segments are
joined with `.`. -/
def joinDot (pre n : String) : String :=
  if pre = "" then n else pre ++ "." ++ n

/-- Dot-join a whole path of directory segments onto a prefix. -/
def dotJoinAll (pre : String) (path : List String) : String :=
  path.foldl joinDot pre

/-- The candidate test of `PackageFinder._find_iter` line 126: the
subdirectory is skipped (not yielded, not descended into) unless its name is
dot-free and `_looks_like_package` holds for it. -/
def acceptDir (looks : String → FSTree → Bool) (p : String × FSTree) : Bool :=
  !(hasDotChar p.1) && looks p.1 p.2

/-- The packages yielded at one directory level of `_find_iter`: each
accepted subdirectory whose qualified name passes `include` and not
`exclude` (lines 120-131). -/
def yieldsAt (looks : String → FSTree → Bool) (ex inc : String → Bool)
    (pre : String) (ds : List (String × FSTree)) : List String :=
  (ds.filter (acceptDir looks)).filterMap (fun p =>
    if inc (joinDot pre p.1) && !(ex (joinDot pre p.1))
    then some (joinDot pre p.1) else none)

/-- `PackageFinder._find_iter` via `os.walk`: yield this level's packages,
then recurse (in listing order) into exactly the accepted subdirectories
(`dirs.append(dir)` is only reached for accepted ones).  The `Nat` is
structural fuel; it strictly decreases down the tree while `FSTree.size`
bounds the tree depth, so the seed `FSTree.size t` used by
`packageFindIter` never runs out and the `0` branch is unreachable. -/
def walkTreeFuel (looks : String → FSTree → Bool) (ex inc : String → Bool) :
    Nat → String → FSTree → List String
  | 0, _, _ => []
  | fuel + 1, pre, FSTree.mk ds _ =>
      yieldsAt looks ex inc pre ds ++
        ((ds.filter (acceptDir looks)).map
          (fun p => walkTreeFuel looks ex inc fuel (joinDot pre p.1) p.2)).flatten

/-- `PackageFinder._find_iter(where, exclude, include)` on the tree rooted
at `t`. -/
def packageFindIter (looks : String → FSTree → Bool) (ex inc : String → Bool)
    (t : FSTree) : List String :=
  walkTreeFuel looks ex inc t.size "" t

/-- `_Finder.find` for package finders: empty `exclude` falls back to the
variant's `DEFAULT_EXCLUDE` (Python `exclude or cls.DEFAULT_EXCLUDE`), and
the filter is built from `ALWAYS_EXCLUDE` followed by the chosen excludes. -/
def findPkgs (alwaysEx defaultEx : List String) (looks : String → FSTree → Bool)
    (root : FSTree) (exclude inc : List String) : List String :=
  let ex := if exclude.isEmpty then defaultEx else exclude
  packageFindIter looks (buildFilter (alwaysEx ++ ex)) (buildFilter inc) root

/-- `PackageFinder._looks_like_package`: the directory directly contains the
package-initializer file `__init__.py`. -/
def looksLikePackage (_name : String) (t : FSTree) : Bool :=
  t.files.contains "__init__.py"

def PackageFinder.ALWAYS_EXCLUDE : List String :=
  ["ez_setup", "*__pycache__"]

/-- `PackageFinder.find` (marker-based variant). -/
def PackageFinder.find (root : FSTree) (exclude inc : List String) : List String :=
  findPkgs PackageFinder.ALWAYS_EXCLUDE [] looksLikePackage root exclude inc

/-- `PEP420PackageFinder.find`: `_looks_like_package` always true. -/
def PEP420PackageFinder.find (root : FSTree) (exclude inc : List String) : List String :=
  findPkgs PackageFinder.ALWAYS_EXCLUDE [] (fun _ _ => true) root exclude inc

def FlatLayoutPackageFinder.DEFAULT_EXCLUDE : List String :=
  ["doc", "docs", "test", "tests", "example", "examples",
   "tasks", "fabfile", "site_scons", "[._]*"]

/-- `FlatLayoutPackageFinder.find`: flat default-exclude table, and
`_looks_like_package = _valid_name` (base name must be an identifier). -/
def FlatLayoutPackageFinder.find (root : FSTree) (exclude inc : List String) :
    List String :=
  findPkgs PackageFinder.ALWAYS_EXCLUDE FlatLayoutPackageFinder.DEFAULT_EXCLUDE
    (fun name _ => isidentifier name) root exclude inc

/-- The namespace-tolerant finder reconfigured with the flat-layout default
exclusion table but its own `_looks_like_package` (always true) — the
finder the spec asserts `FlatLayoutPackageFinder` to be. -/
def PEP420WithFlatDefaults.find (root : FSTree) (exclude inc : List String) :
    List String :=
  findPkgs PackageFinder.ALWAYS_EXCLUDE FlatLayoutPackageFinder.DEFAULT_EXCLUDE
    (fun _ _ => true) root exclude inc

/-- The directory entries `glob(os.path.join(where, "*.py"))` scans: all
entries (files and subdirectories alike) directly inside the root. -/
def moduleEntries (t : FSTree) : List String :=
  t.files ++ t.dirs.map Prod.fst

/-- Which entries `glob` with pattern `*.py` returns: names matching the
glob, excluding hidden entries (leading `.`), which `glob` skips for
patterns that do not themselves start with `.`. -/
def globPy (name : String) : Bool :=
  !(name.data.take 1 = ['.']) && fnmatchcase name "*.py"

/-- `os.path.splitext(os.path.basename(file))[0]` for a name matching
`*.py` (and not starting with a dot): drop the trailing `.py`. -/
def stripPy (name : String) : String :=
  String.mk (name.data.dropLast.dropLast.dropLast)

/-- `ModuleFinder._find_iter`: non-recursive scan of the root's entries
matching `*.py`; candidates failing `_looks_like_module` are skipped, the
rest pass through the include/exclude predicates. -/
def moduleFindIter (looksLikeModule : String → Bool) (ex inc : String → Bool)
    (t : FSTree) : List String :=
  ((moduleEntries t).filter globPy).filterMap (fun name =>
    if !(looksLikeModule (stripPy name)) then none
    else if inc (stripPy name) && !(ex (stripPy name))
    then some (stripPy name) else none)

/-- `_Finder.find` for module finders (`ALWAYS_EXCLUDE` is empty for them). -/
def findMods (defaultEx : List String) (lm : String → Bool)
    (root : FSTree) (exclude inc : List String) : List String :=
  let ex := if exclude.isEmpty then defaultEx else exclude
  moduleFindIter lm (buildFilter ex) (buildFilter inc) root

/-- `ModuleFinder.find` (`_looks_like_module = _valid_name`). -/
def ModuleFinder.find (root : FSTree) (exclude inc : List String) : List String :=
  findMods [] isidentifier root exclude inc

def FlatLayoutModuleFinder.DEFAULT_EXCLUDE : List String :=
  ["setup", "conftest", "test", "tests", "example", "examples",
   "noxfile", "pavement", "dodo", "tasks", "fabfile",
   "[Ss][Cc]onstruct", "conanfile", "manage", "[._]*"]

/-- `FlatLayoutModuleFinder.find`. -/
def FlatLayoutModuleFinder.find (root : FSTree) (exclude inc : List String) :
    List String :=
  findMods FlatLayoutModuleFinder.DEFAULT_EXCLUDE isidentifier root exclude inc

/-- A chain of directories below a node in which every segment was accepted
by `acceptDir` (dot-free name, `_looks_like_package` holds): exactly the
paths the walk can reach and yield. -/
inductive PkgPath (looks : String → FSTree → Bool) : FSTree → List String → Prop where
  | here (t : FSTree) : PkgPath looks t []
  | step {t : FSTree} {n : String} {c : FSTree} {rest : List String} :
      (n, c) ∈ t.dirs → acceptDir looks (n, c) = true →
      PkgPath looks c rest → PkgPath looks t (n :: rest)

/-- Every directory name anywhere in the tree is a valid identifier
(fuel-bounded like the walk, seeded the same way by `allDirsIdent`). -/
def allIdentFuel : Nat → FSTree → Bool
  | 0, _ => true
  | fuel + 1, .mk ds _ => ds.all (fun p => isidentifier p.1 && allIdentFuel fuel p.2)

def allDirsIdent (t : FSTree) : Bool :=
  allIdentFuel t.size t

/-- The end-to-end example tree of the spec:
`root/pkg1/__init__.py`, `root/pkg1/sub/__init__.py`, `root/pkg2file.py`,
`root/tests/__init__.py`. -/
def c6Tree : FSTree :=
  FSTree.mk
    [("pkg1", FSTree.mk [("sub", FSTree.mk [] ["__init__.py"])] ["__init__.py"]),
     ("tests", FSTree.mk [] ["__init__.py"])]
    ["pkg2file.py"]

/-- Tree with a dotted-name directory that itself holds a valid marked
package: `root/my.pkg/__init__.py`, `root/my.pkg/sub/__init__.py`. -/
def dottedTree : FSTree :=
  FSTree.mk [("my.pkg", FSTree.mk [("sub", FSTree.mk [] ["__init__.py"])] ["__init__.py"])] []

/-- Tree with a marked package directory named `ez_setup` nested one level
down: `root/wrapper/__init__.py`, `root/wrapper/ez_setup/__init__.py`. -/
def ezTree : FSTree :=
  FSTree.mk [("wrapper", FSTree.mk [("ez_setup", FSTree.mk [] ["__init__.py"])] ["__init__.py"])] []

/-- Tree whose only directory has a name that is not a valid identifier. -/
def dashTree : FSTree :=
  FSTree.mk [("foo-bar", FSTree.mk [] [])] []

/-- Tree whose only entry is a directory whose name ends in `.py`. -/
def dirPyTree : FSTree :=
  FSTree.mk [("dpy.py", FSTree.mk [] [])] []

/-- Tree containing packages `foo` and `foo.bar`:
`root/foo/__init__.py`, `root/foo/bar/__init__.py`. -/
def fooTree : FSTree :=
  FSTree.mk [("foo", FSTree.mk [("bar", FSTree.mk [] ["__init__.py"])] ["__init__.py"])] []

/-! Helper lemmas about the embedding. -/

theorem buildFilter_append (a b : List String) (n : String) :
    buildFilter (a ++ b) n = (buildFilter a n || buildFilter b n) := by
  simp [buildFilter, List.any_append]

theorem mem_yieldsAt {looks : String → FSTree → Bool} {ex inc : String → Bool}
    {pre : String} {ds : List (String × FSTree)} {n : String} :
    n ∈ yieldsAt looks ex inc pre ds ↔
      ∃ p ∈ ds, acceptDir looks p = true ∧ n = joinDot pre p.1 ∧
        inc n = true ∧ ex n = false := by
  simp only [yieldsAt, List.mem_filterMap, List.mem_filter]
  constructor
  · rintro ⟨p, ⟨hp, hacc⟩, hif⟩
    by_cases h1 : inc (joinDot pre p.1) && !(ex (joinDot pre p.1))
    · rw [if_pos h1] at hif
      obtain rfl := Option.some.inj hif
      rw [Bool.and_eq_true, Bool.not_eq_true'] at h1
      exact ⟨p, hp, hacc, rfl, h1.1, h1.2⟩
    · rw [if_neg h1] at hif
      exact absurd hif (by simp)
  · rintro ⟨p, hp, hacc, rfl, hinc, hex⟩
    exact ⟨p, ⟨hp, hacc⟩, by rw [if_pos (by simp [hinc, hex])]⟩

theorem walkTreeFuel_mem {looks : String → FSTree → Bool} {ex inc : String → Bool} :
    ∀ {fuel : Nat} {pre : String} {t : FSTree} {n : String},
      n ∈ walkTreeFuel looks ex inc fuel pre t →
      ∃ path, path ≠ [] ∧ PkgPath looks t path ∧ n = dotJoinAll pre path ∧
        inc n = true ∧ ex n = false := by
  intro fuel
  induction fuel with
  | zero => intro pre t n h; simp [walkTreeFuel] at h
  | succ fuel ih =>
    intro pre t n h
    cases t with
    | mk ds fs =>
      simp only [walkTreeFuel, List.mem_append] at h
      rcases h with hy | hr
      · rcases mem_yieldsAt.mp hy with ⟨p, hp, hacc, rfl, hinc, hex⟩
        refine ⟨[p.1], by simp, ?_, rfl, hinc, hex⟩
        exact PkgPath.step (t := FSTree.mk ds fs) (by simpa using hp)
          (by simpa using hacc) (PkgPath.here _)
      · rw [List.mem_flatten] at hr
        rcases hr with ⟨l, hl, hnl⟩
        rw [List.mem_map] at hl
        rcases hl with ⟨p, hpf, rfl⟩
        have hp := List.mem_filter.mp hpf
        rcases ih hnl with ⟨path, hne, hpath, rfl, hinc, hex⟩
        refine ⟨p.1 :: path, by simp, ?_, rfl, hinc, hex⟩
        exact PkgPath.step (t := FSTree.mk ds fs) (by simpa using hp.1)
          (by simpa using hp.2) hpath

theorem filterMap_guard_filter {α : Type} (g : α → String) (inc ex : String → Bool) :
    ∀ l : List α,
      l.filterMap (fun a => if inc (g a) && !(ex (g a)) then some (g a) else none)
      = (l.filterMap (fun a => if inc (g a) && !false then some (g a) else none)).filter
          (fun n => !(ex n)) := by
  intro l
  induction l with
  | nil => rfl
  | cons a rest ih =>
    simp only [List.filterMap_cons]
    by_cases hinc : inc (g a)
    · by_cases hex : ex (g a)
      · rw [if_neg (by simp [hex]), if_pos (by simp [hinc])]
        rw [List.filter_cons_of_neg (by simp [hex])]
        exact ih
      · rw [if_pos (by simp [hinc, hex]), if_pos (by simp [hinc])]
        rw [List.filter_cons_of_pos (by simp [hex])]
        rw [ih]
    · rw [if_neg (by simp [hinc]), if_neg (by simp [hinc])]
      exact ih

theorem yieldsAt_filter (looks : String → FSTree → Bool) (ex inc : String → Bool)
    (pre : String) (ds : List (String × FSTree)) :
    yieldsAt looks ex inc pre ds =
      (yieldsAt looks (fun _ => false) inc pre ds).filter (fun n => !(ex n)) :=
  filterMap_guard_filter (fun p : String × FSTree => joinDot pre p.1) inc ex
    (ds.filter (acceptDir looks))

theorem filter_flatten_eq {α : Type} (q : α → Bool) :
    ∀ (ll : List (List α)), ll.flatten.filter q = (ll.map (List.filter q)).flatten := by
  intro ll
  induction ll with
  | nil => simp
  | cons l rest ih => simp [List.filter_append, ih]

theorem walkTreeFuel_filter (looks : String → FSTree → Bool) (ex inc : String → Bool) :
    ∀ (fuel : Nat) (pre : String) (t : FSTree),
      walkTreeFuel looks ex inc fuel pre t =
        (walkTreeFuel looks (fun _ => false) inc fuel pre t).filter (fun n => !(ex n)) := by
  intro fuel
  induction fuel with
  | zero => intro pre t; simp [walkTreeFuel]
  | succ fuel ih =>
    intro pre t
    cases t with
    | mk ds fs =>
      simp only [walkTreeFuel, List.filter_append]
      congr 1
      · exact yieldsAt_filter looks ex inc pre ds
      · rw [filter_flatten_eq, List.map_map]
        congr 1
        refine List.map_congr_left (fun p _ => ?_)
        simp only [Function.comp]
        exact ih (joinDot pre p.1) p.2

theorem walkTreeFuel_looks_congr (ex inc : String → Bool) :
    ∀ (fuel : Nat) (pre : String) (t : FSTree), allIdentFuel fuel t = true →
      walkTreeFuel (fun name _ => isidentifier name) ex inc fuel pre t =
        walkTreeFuel (fun _ _ => true) ex inc fuel pre t := by
  intro fuel
  induction fuel with
  | zero => intro pre t _; rfl
  | succ fuel ih =>
    intro pre t hid
    cases t with
    | mk ds fs =>
      simp only [allIdentFuel, List.all_eq_true] at hid
      have hfil : ds.filter (acceptDir (fun name _ => isidentifier name)) =
          ds.filter (acceptDir (fun _ _ => true)) := by
        refine List.filter_congr (fun p hp => ?_)
        have := hid p hp
        rw [Bool.and_eq_true] at this
        simp [acceptDir, this.1]
      simp only [walkTreeFuel, yieldsAt, hfil]
      congr 1
      refine congrArg List.flatten (List.map_congr_left (fun p hp => ?_))
      have hmem : p ∈ ds := (List.mem_filter.mp hp).1
      have := hid p hmem
      rw [Bool.and_eq_true] at this
      exact ih (joinDot pre p.1) p.2 this.2

theorem mem_moduleFindIter {lm ex inc : String → Bool} {t : FSTree} {n : String} :
    n ∈ moduleFindIter lm ex inc t ↔
      ∃ e ∈ moduleEntries t, globPy e = true ∧ n = stripPy e ∧
        lm n = true ∧ inc n = true ∧ ex n = false := by
  simp only [moduleFindIter, List.mem_filterMap, List.mem_filter]
  constructor
  · rintro ⟨e, ⟨he, hg⟩, hif⟩
    by_cases h1 : lm (stripPy e)
    · rw [if_neg (by simp [h1])] at hif
      by_cases h2 : inc (stripPy e) && !(ex (stripPy e))
      · rw [if_pos h2] at hif
        obtain rfl := Option.some.inj hif
        rw [Bool.and_eq_true, Bool.not_eq_true'] at h2
        exact ⟨e, he, hg, rfl, h1, h2.1, h2.2⟩
      · rw [if_neg h2] at hif
        exact absurd hif (by simp)
    · rw [if_pos (by simp [h1])] at hif
      exact absurd hif (by simp)
  · rintro ⟨e, he, hg, rfl, h1, h2, h3⟩
    refine ⟨e, ⟨he, hg⟩, ?_⟩
    rw [if_neg (by simp [h1]), if_pos (by simp [h2, h3])]

theorem fnMatchFuel_literal :
    ∀ (fuel : Nat) (pat s : List Char),
      (∀ c ∈ pat, c ≠ '*' ∧ c ≠ '?' ∧ c ≠ '[') →
      pat.length + s.length < fuel →
      (fnMatchFuel fuel pat s = true ↔ pat = s) := by
  intro fuel
  induction fuel with
  | zero => intro pat s _ hlen; omega
  | succ fuel ih =>
    intro pat s hp hlen
    cases pat with
    | nil =>
      simp only [fnMatchFuel, List.isEmpty_iff]
      exact ⟨fun h => h.symm, fun h => h.symm⟩
    | cons p ps =>
      have hps := hp p (by simp)
      simp only [fnMatchFuel]
      rw [if_neg (by simpa using hps.1), if_neg (by simpa using hps.2.1),
        if_neg (by simpa using hps.2.2)]
      cases s with
      | nil => simp
      | cons c s2 =>
        rw [Bool.and_eq_true, decide_eq_true_iff,
          ih ps s2 (fun d hd => hp d (by simp [hd])) (by simp at hlen ⊢; omega)]
        simp

theorem fnmatchcase_literal {name pat : String}
    (h : ∀ c ∈ pat.data, c ≠ '*' ∧ c ≠ '?' ∧ c ≠ '[') :
    (fnmatchcase name pat = true ↔ name = pat) := by
  unfold fnmatchcase
  rw [fnMatchFuel_literal _ _ _ h (by omega)]
  exact ⟨fun hd => (String.ext hd).symm, fun hd => by rw [hd]⟩

theorem fnmatchcase_lit_beq (name pat : String)
    (h : ∀ c ∈ pat.data, c ≠ '*' ∧ c ≠ '?' ∧ c ≠ '[') :
    fnmatchcase name pat = (name == pat) := by
  cases hm : fnmatchcase name pat
  · cases hb : name == pat
    · rfl
    · rw [beq_iff_eq] at hb
      rw [(fnmatchcase_literal h).mpr hb] at hm
      exact hm.symm
  · rw [(fnmatchcase_literal h).mp hm, beq_self_eq_true]

/-! Claims. -/

/-- C1 counterexample: a directory literally named `my.pkg` is skipped with
`continue` before `dirs.append`, so the walk never descends into it — the
marked package `root/my.pkg/sub` is NOT discovered by any variant, refuting
the claim that valid-named subdirectories of a dotted-name directory still
appear in the result. -/
theorem c1_counterexample :
    PackageFinder.find dottedTree [] ["*"] = [] ∧
    PEP420PackageFinder.find dottedTree [] ["*"] = [] ∧
    FlatLayoutPackageFinder.find dottedTree [] ["*"] = [] := by
  decide

/-- C1 (amended): a directory whose name contains `.` is never yielded and
blocks its whole subtree; what does not block descent is rejection by the
include/exclude *filters* — for every variant and arguments, the result is
the pointwise name-filtering of the completely unfiltered traversal, so a
filter-excluded parent never hides packages nested deeper. -/
theorem c1_amended (alwaysEx defaultEx : List String)
    (looks : String → FSTree → Bool) (root : FSTree) (exclude inc : List String) :
    findPkgs alwaysEx defaultEx looks root exclude inc =
      (packageFindIter looks (fun _ => false) (buildFilter inc) root).filter
        (fun n =>
          !(buildFilter (alwaysEx ++ (if exclude.isEmpty then defaultEx else exclude)) n)) := by
  unfold findPkgs packageFindIter
  exact walkTreeFuel_filter looks _ (buildFilter inc) root.size "" root

/-- C2 counterexample: the always-exclude patterns are matched against the
full dotted name, so a marked package directory named `ez_setup` nested one
level down is yielded as `wrapper.ez_setup` even with `exclude=()`. -/
theorem c2_counterexample :
    PackageFinder.find ezTree [] ["*"] = ["wrapper", "wrapper.ez_setup"] := by
  decide

/-- C2 (amended): for every caller configuration, no result of a package
finder matches the bytecode-cache glob `*__pycache__` (its leading `*`
makes it depth-independent), and no result is the top-level name
`ez_setup`; a *nested* directory named `ez_setup` can however appear (see
the counterexample). -/
theorem c2_amended (defaultEx : List String) (looks : String → FSTree → Bool)
    (root : FSTree) (exclude inc : List String) (n : String)
    (h : n ∈ findPkgs PackageFinder.ALWAYS_EXCLUDE defaultEx looks root exclude inc) :
    fnmatchcase n "*__pycache__" = false ∧ n ≠ "ez_setup" := by
  unfold findPkgs packageFindIter at h
  obtain ⟨path, -, -, -, -, hex⟩ := walkTreeFuel_mem h
  rw [buildFilter_append, Bool.or_eq_false_iff] at hex
  have hA := hex.1
  rw [show PackageFinder.ALWAYS_EXCLUDE = ["ez_setup", "*__pycache__"] from rfl] at hA
  simp only [buildFilter, List.any_cons, List.any_nil, Bool.or_eq_false_iff] at hA
  refine ⟨hA.2.1, fun hne => ?_⟩
  rw [hne] at hA
  exact absurd hA.1 (by decide)

/-- C2 witness: the amended theorem applied to a concrete member of a
concrete result. -/
theorem c2_amended_witness :
    ("wrapper" ∈ findPkgs PackageFinder.ALWAYS_EXCLUDE [] looksLikePackage ezTree [] ["*"]) ∧
    (fnmatchcase "wrapper" "*__pycache__" = false ∧ "wrapper" ≠ "ez_setup") :=
  ⟨by decide, c2_amended [] looksLikePackage ezTree [] ["*"] "wrapper" (by decide)⟩

/-- C3 counterexample: `FlatLayoutPackageFinder` is not a pure configuration
specialization of the namespace-tolerant finder — it also replaces
`_looks_like_package` by the valid-identifier test, so on a directory named
`foo-bar` the two disagree. -/
theorem c3_counterexample :
    FlatLayoutPackageFinder.find dashTree [] ["*"] = [] ∧
    PEP420WithFlatDefaults.find dashTree [] ["*"] = ["foo-bar"] := by
  decide

/-- C3 (amended): `FlatLayoutPackageFinder` is the namespace-tolerant finder
with the flat-layout Default Exclusion Table AND the candidate
classification changed to the valid-identifier test; consequently the two
coincide on every tree all of whose directory names are valid identifiers. -/
theorem c3_amended (root : FSTree) (exclude inc : List String)
    (h : allDirsIdent root = true) :
    FlatLayoutPackageFinder.find root exclude inc =
      PEP420WithFlatDefaults.find root exclude inc := by
  unfold FlatLayoutPackageFinder.find PEP420WithFlatDefaults.find findPkgs packageFindIter
  exact walkTreeFuel_looks_congr _ _ root.size "" root h

/-- C3 witness: the amended theorem applied to a concrete all-identifier
tree. -/
theorem c3_amended_witness :
    allDirsIdent fooTree = true ∧
    FlatLayoutPackageFinder.find fooTree [] ["*"] =
      PEP420WithFlatDefaults.find fooTree [] ["*"] :=
  ⟨by decide, c3_amended fooTree [] ["*"] (by decide)⟩

/-- C4: rejection is pruning — every name a package finder returns arises
from a chain of directories each of which was accepted (dot-free name and
passing the variant's looks-like-a-package test), so a subdirectory
rejected by either test is neither yielded nor recursed into: no result has
it as a path segment. -/
theorem c4_reject_prunes (looks : String → FSTree → Bool) (ex inc : String → Bool)
    (root : FSTree) (n : String) (h : n ∈ packageFindIter looks ex inc root) :
    ∃ path, path ≠ [] ∧ PkgPath looks root path ∧ n = dotJoinAll "" path := by
  obtain ⟨path, h1, h2, h3, -, -⟩ := walkTreeFuel_mem h
  exact ⟨path, h1, h2, h3⟩

/-- C4 witness: the theorem applied to a concrete member of a concrete
traversal. -/
theorem c4_witness :
    ("pkg1" ∈ packageFindIter looksLikePackage (fun _ => false) (fun _ => true) c6Tree) ∧
    (∃ path, path ≠ [] ∧ PkgPath looksLikePackage c6Tree path ∧
      "pkg1" = dotJoinAll "" path) :=
  ⟨by decide, c4_reject_prunes looksLikePackage (fun _ => false) (fun _ => true) c6Tree "pkg1"
    (by decide)⟩

/-- C5 counterexample: `ModuleFinder` enumerates with `glob("*.py")`, which
matches directories too — a directory named `dpy.py` is yielded as module
`dpy` although the root contains no file at all. -/
theorem c5_counterexample :
    ModuleFinder.find dirPyTree [] ["*"] = ["dpy"] ∧ dirPyTree.files = [] := by
  decide

/-- C5 (amended): every name a module finder returns is the `.py`-stripped
base name of a non-hidden directory entry matching `*.py` directly inside
the root — an entry that may be a regular file OR a directory — whose
stripped name passes the looks-like-a-module test; the scan is still
non-recursive. -/
theorem c5_amended (defaultEx : List String) (lm : String → Bool) (root : FSTree)
    (exclude inc : List String) (n : String)
    (h : n ∈ findMods defaultEx lm root exclude inc) :
    ∃ e ∈ moduleEntries root, globPy e = true ∧ n = stripPy e ∧ lm n = true := by
  unfold findMods at h
  obtain ⟨e, he, hg, hn, hlm, -, -⟩ := mem_moduleFindIter.mp h
  exact ⟨e, he, hg, hn, hlm⟩

/-- C5 witness: the amended theorem applied to a concrete member of a
concrete result. -/
theorem c5_amended_witness :
    ("pkg2file" ∈ findMods [] isidentifier c6Tree [] ["*"]) ∧
    (∃ e ∈ moduleEntries c6Tree, globPy e = true ∧ "pkg2file" = stripPy e ∧
      isidentifier "pkg2file" = true) :=
  ⟨by decide, c5_amended [] isidentifier c6Tree [] ["*"] "pkg2file" (by decide)⟩

/-- C6: on the spec's end-to-end example tree, the marker-based Package
Finder with `exclude=('tests',)` returns exactly `['pkg1', 'pkg1.sub']` in
that order, and the Module Finder on the root returns exactly
`['pkg2file']`. -/
theorem c6_end_to_end :
    PackageFinder.find c6Tree ["tests"] ["*"] = ["pkg1", "pkg1.sub"] ∧
    ModuleFinder.find c6Tree [] ["*"] = ["pkg2file"] := by
  decide

/-- C7: with an empty `exclude`, every returned name fails the variant's
Default Exclusion Table (and the always-exclude table); with a non-empty
explicit `exclude`, the Default Exclusion Table plays no role at all — the
result is the same as if the table were empty (explicit excludes replace
defaults) while the always-exclude table is still applied.  Stated for both
the package-finder family and the module-finder family. -/
theorem c7_default_exclude_semantics (alwaysEx defaultEx : List String)
    (looks : String → FSTree → Bool) (lm : String → Bool) (root : FSTree)
    (inc : List String) (e0 : String) (erest : List String) :
    ((findPkgs alwaysEx defaultEx looks root [] inc).all
        (fun n => !(buildFilter defaultEx n) && !(buildFilter alwaysEx n)) = true) ∧
    (findPkgs alwaysEx defaultEx looks root (e0 :: erest) inc =
      findPkgs alwaysEx [] looks root (e0 :: erest) inc) ∧
    ((findPkgs alwaysEx defaultEx looks root (e0 :: erest) inc).all
        (fun n => !(buildFilter alwaysEx n)) = true) ∧
    ((findMods defaultEx lm root [] inc).all
        (fun n => !(buildFilter defaultEx n)) = true) ∧
    (findMods defaultEx lm root (e0 :: erest) inc =
      findMods [] lm root (e0 :: erest) inc) := by
  refine ⟨?_, rfl, ?_, ?_, rfl⟩
  · rw [List.all_eq_true]
    intro n hn
    unfold findPkgs packageFindIter at hn
    obtain ⟨-, -, -, -, -, hex⟩ := walkTreeFuel_mem hn
    rw [show (if ([] : List String).isEmpty then defaultEx else []) = defaultEx from rfl,
      buildFilter_append, Bool.or_eq_false_iff] at hex
    simp [hex.1, hex.2]
  · rw [List.all_eq_true]
    intro n hn
    unfold findPkgs packageFindIter at hn
    obtain ⟨-, -, -, -, -, hex⟩ := walkTreeFuel_mem hn
    rw [buildFilter_append, Bool.or_eq_false_iff] at hex
    simp [hex.1]
  · rw [List.all_eq_true]
    intro n hn
    unfold findMods at hn
    obtain ⟨-, -, -, -, -, -, hex⟩ := mem_moduleFindIter.mp hn
    rw [show (if ([] : List String).isEmpty then defaultEx else []) = defaultEx from rfl] at hex
    simp [hex]

/-- C8: with an empty `include` pattern list the compiled include predicate
is constant false, so every finder variant returns the empty list whatever
the tree and excludes are. -/
theorem c8_empty_include (alwaysEx defaultEx : List String)
    (looks : String → FSTree → Bool) (lm : String → Bool) (root : FSTree)
    (exclude : List String) :
    findPkgs alwaysEx defaultEx looks root exclude [] = [] ∧
    findMods defaultEx lm root exclude [] = [] := by
  constructor
  · rw [List.eq_nil_iff_forall_not_mem]
    intro n hn
    unfold findPkgs packageFindIter at hn
    obtain ⟨-, -, -, -, hinc, -⟩ := walkTreeFuel_mem hn
    simp [buildFilter] at hinc
  · rw [List.eq_nil_iff_forall_not_mem]
    intro n hn
    unfold findMods at hn
    obtain ⟨-, -, -, -, -, hinc, -⟩ := mem_moduleFindIter.mp hn
    simp [buildFilter] at hinc

/-- C9: output contract — every returned package name is the dot-join of a
nonempty chain of directories existing under the root, each segment
accepted by the variant's structural test, and the name passes the include
predicate and fails the combined exclude predicate; every returned module
name is the stripped base name of an existing directory entry of the root
matching `*.py` that passes the looks-like-a-module test and both
predicates. -/
theorem c9_output_contract (alwaysEx defaultEx : List String)
    (looks : String → FSTree → Bool) (lm : String → Bool) (root : FSTree)
    (exclude inc : List String) :
    (∀ n ∈ findPkgs alwaysEx defaultEx looks root exclude inc,
      ∃ path, path ≠ [] ∧ PkgPath looks root path ∧ n = dotJoinAll "" path ∧
        buildFilter inc n = true ∧
        buildFilter (alwaysEx ++ (if exclude.isEmpty then defaultEx else exclude)) n
          = false) ∧
    (∀ n ∈ findMods defaultEx lm root exclude inc,
      ∃ e ∈ moduleEntries root, globPy e = true ∧ n = stripPy e ∧ lm n = true ∧
        buildFilter inc n = true ∧
        buildFilter (if exclude.isEmpty then defaultEx else exclude) n = false) := by
  constructor
  · intro n hn
    unfold findPkgs packageFindIter at hn
    exact walkTreeFuel_mem hn
  · intro n hn
    unfold findMods at hn
    exact mem_moduleFindIter.mp hn

/-- C9 witness: the contract applied to a concrete member of a concrete
result. -/
theorem c9_witness :
    ("pkg1" ∈ findPkgs PackageFinder.ALWAYS_EXCLUDE [] looksLikePackage c6Tree
        ["tests"] ["*"]) ∧
    (∃ path, path ≠ [] ∧ PkgPath looksLikePackage c6Tree path ∧
      "pkg1" = dotJoinAll "" path ∧
      buildFilter ["*"] "pkg1" = true ∧
      buildFilter (PackageFinder.ALWAYS_EXCLUDE ++
        (if (["tests"] : List String).isEmpty then [] else ["tests"])) "pkg1" = false) :=
  ⟨by decide,
    (c9_output_contract PackageFinder.ALWAYS_EXCLUDE [] looksLikePackage isidentifier
      c6Tree ["tests"] ["*"]).1 "pkg1" (by decide)⟩

/-- C10: exclude patterns are matched against the whole dotted name — for
every variant, excluding exactly `foo` removes only the name `foo` itself
from the otherwise-unexcluded result (subpackages such as `foo.bar`
survive); concretely, on a tree with packages `foo` and `foo.bar`,
`exclude=('foo',)` returns `['foo.bar']`. -/
theorem c10_whole_name_matching (defaultEx : List String)
    (looks : String → FSTree → Bool) (root : FSTree) (inc : List String) :
    (findPkgs PackageFinder.ALWAYS_EXCLUDE defaultEx looks root ["foo"] inc =
      (packageFindIter looks (buildFilter PackageFinder.ALWAYS_EXCLUDE)
        (buildFilter inc) root).filter (fun n => !(n == "foo"))) ∧
    PackageFinder.find fooTree ["foo"] ["*"] = ["foo.bar"] := by
  refine ⟨?_, by decide⟩
  unfold findPkgs packageFindIter
  rw [show (if (["foo"] : List String).isEmpty then defaultEx else ["foo"])
      = ["foo"] from rfl]
  rw [walkTreeFuel_filter looks
      (buildFilter (PackageFinder.ALWAYS_EXCLUDE ++ ["foo"])) (buildFilter inc)
      root.size "" root,
    walkTreeFuel_filter looks (buildFilter PackageFinder.ALWAYS_EXCLUDE)
      (buildFilter inc) root.size "" root]
  rw [List.filter_filter]
  refine List.filter_congr (fun n _ => ?_)
  rw [buildFilter_append, Bool.not_or]
  have hfoo : buildFilter ["foo"] n = (n == "foo") := by
    rw [show buildFilter ["foo"] n = (fnmatchcase n "foo" || false) from rfl,
      Bool.or_false]
    exact fnmatchcase_lit_beq n "foo" (by decide)
  rw [hfoo, Bool.and_comm]
